import Mathlib

/-!
Verification model of the pelosi-trades-notifier repository.

The development shallowly embeds the two core modules:

* `src/tracker.py` — `DisclosureTracker`: persisted repository state
  (known disclosure identities plus per-year expected counts), the
  change detector `check_for_new_disclosures`, and the orchestrator
  `process_new_disclosures`.  The HTTP layer is abstracted: a search
  response is modelled as its raw text together with the results table
  that `BeautifulSoup` would extract from it (`Page`), and the document
  fetch / email send collaborators are modelled as oracle functions
  (`Collab`).

* `src/pdf_parser.py` — `extract_trades_from_pdf` (the ticker-anchored
  strategy).  `PyPDF2` text extraction is abstracted as an
  `Except String (List String)` input: either the list of page texts or
  the message of the exception it raised.

The regular expressions used by the source are interpreted by a small
backtracking engine (`RE` / `run`) with Python-`re` leftmost-then-greedy
semantics, restricted to ASCII character classes; every quantified
subexpression in the source's patterns is a single character class, so
the engine's quantifiers range over character classes only.
-/

namespace PelosiTrades

/-! ### Character-level helpers (Python `str` methods, ASCII semantics) -/

/-- Python whitespace for `\s` / `str.strip`: space, tab, newline,
carriage return, vertical tab, form feed. -/
def isPyWs (c : Char) : Bool :=
  c = ' ' || c = '\t' || c = '\n' || c = '\r' || c = '\x0b' || c = '\x0c'

/-- Source `str.strip()` on a character list. -/
def pyStrip (cs : List Char) : List Char :=
  ((cs.dropWhile isPyWs).reverse.dropWhile isPyWs).reverse

/-- Source `str.strip()` on a string. -/
def pyStripS (s : String) : String := String.mk (pyStrip s.toList)

/-- Is `n` a prefix of the second list (char-literal comparison)? -/
def listIsPre : List Char → List Char → Bool
  | [], _ => true
  | _ :: _, [] => false
  | a :: as, b :: bs => a = b && listIsPre as bs

/-- Python's `needle in hay` substring test. -/
def hasSub (n : List Char) : List Char → Bool
  | [] => listIsPre n []
  | c :: cs => listIsPre n (c :: cs) || hasSub n cs

/-- Source `str.startswith`. -/
def strStarts (s pre : String) : Bool := listIsPre pre.toList s.toList

/-- Source `str.endswith`. -/
def strEnds (s suf : String) : Bool := listIsPre suf.toList.reverse s.toList.reverse

/-- Source `str.split('\n')`, accumulator form. -/
def splitNlAux : List Char → List Char → List String
  | acc, [] => [String.mk acc.reverse]
  | acc, c :: rest =>
    if c = '\n' then String.mk acc.reverse :: splitNlAux [] rest
    else splitNlAux (c :: acc) rest

/-- Source `str.split('\n')`. -/
def splitNl (cs : List Char) : List String := splitNlAux [] cs

/-- One `re.sub(r'\s+', ' ', s)` pass: each maximal whitespace run becomes
a single space.  The flag records whether the previous character was part
of a whitespace run already rewritten. -/
def collapseWsAux : Bool → List Char → List Char
  | _, [] => []
  | prev, c :: rest =>
    if isPyWs c then
      if prev then collapseWsAux true rest else ' ' :: collapseWsAux true rest
    else c :: collapseWsAux false rest

/-- Source `re.sub(r'\s+', ' ', s).strip()` as used on descriptions. -/
def collapseWs (s : String) : String :=
  pyStripS (String.mk (collapseWsAux false s.toList))

/-- Source `int()` on a run of decimal digits. -/
def digitsToNat (cs : List Char) : Nat :=
  cs.foldl (fun a c => a * 10 + (c.toNat - '0'.toNat)) 0

/-! ### A small regex engine

Character classes appearing in the source's patterns. -/

inductive CC where
  | lit (c : Char)
  | ws
  | digit
  | upper
  | notLParen
  | notNewline
deriving DecidableEq

def CC.test : CC → Char → Bool
  | .lit a, c => c = a
  | .ws, c => isPyWs c
  | .digit, c => c.isDigit
  | .upper, c => 'A' ≤ c && c ≤ 'Z'
  | .notLParen, c => c ≠ '('
  | .notNewline, c => c ≠ '\n'

/-- Regex syntax.  Quantifiers (`starC`, `optC`, `repC`) act on character
classes only, which covers every pattern in the source. -/
inductive RE where
  | eps
  | ch (c : CC)
  | seq (a b : RE)
  | alt (a b : RE)
  | starC (c : CC)
  | optC (c : CC)
  | repC (c : CC) (n : Nat)
  | group (a : RE)
deriving DecidableEq

/-- Greedy `c*`: all suffixes reachable by consuming a (possibly empty)
run of `c`-characters, longest consumption first — the backtracking
order of Python's greedy star. -/
def runStarCC (c : CC) : List Char → List (List Char)
  | [] => [[]]
  | x :: xs => if c.test x then runStarCC c xs ++ [x :: xs] else [x :: xs]

/-- Source `c{n}`: consume exactly `n` characters of class `c`. -/
def dropRep (c : CC) : Nat → List Char → Option (List Char)
  | 0, cs => some cs
  | _ + 1, [] => none
  | n + 1, x :: xs => if c.test x then dropRep c n xs else none

/-- All ways a regex can match a prefix of the input, as
(remaining suffix, capture of the unique group) pairs in Python's
backtracking priority order (leftmost alternative / greediest first). -/
def run : RE → List Char → List (List Char × Option (List Char))
  | .eps, cs => [(cs, none)]
  | .ch _, [] => []
  | .ch c, x :: xs => if c.test x then [(xs, none)] else []
  | .seq a b, cs =>
    (run a cs).flatMap fun p => (run b p.1).map fun q => (q.1, p.2 <|> q.2)
  | .alt a b, cs => run a cs ++ run b cs
  | .starC c, cs => (runStarCC c cs).map fun s => (s, none)
  | .optC c, cs =>
    (match cs with
      | x :: xs => if c.test x then [(xs, (none : Option (List Char)))] else []
      | [] => []) ++ [(cs, none)]
  | .repC c n, cs =>
    match dropRep c n cs with
    | some s => [(s, none)]
    | none => []
  | .group a, cs =>
    (run a cs).map fun p => (p.1, some (cs.take (cs.length - p.1.length)))

/-- Source `re.search`, returning the capture of the first (leftmost, highest
priority) match. -/
def reSearchCap (r : RE) : List Char → Option (List Char)
  | [] =>
    (match run r [] with
      | p :: _ => p.2
      | [] => none)
  | c :: xs =>
    match run r (c :: xs) with
    | p :: _ => p.2
    | [] => reSearchCap r xs

/-- Source `re.finditer`: non-overlapping leftmost matches as
(start index, match length, capture) triples.  The fuel argument bounds
the scan; `cs.length + 1` always suffices since every step advances. -/
def reFindIterAux (r : RE) : Nat → List Char → Nat → List (Nat × Nat × List Char)
  | 0, _, _ => []
  | _ + 1, [], idx =>
    (match run r [] with
      | p :: _ => [(idx, 0, p.2.getD [])]
      | [] => [])
  | fuel + 1, c :: rest, idx =>
    match run r (c :: rest) with
    | p :: _ =>
      let k := (c :: rest).length - p.1.length
      (idx, k, p.2.getD []) ::
        reFindIterAux r fuel ((c :: rest).drop (max k 1)) (idx + max k 1)
    | [] => reFindIterAux r fuel rest (idx + 1)

def reFindIter (r : RE) (cs : List Char) : List (Nat × Nat × List Char) :=
  reFindIterAux r (cs.length + 1) cs 0

/-- A literal string as a regex. -/
def litRE (s : String) : RE :=
  s.toList.foldr (fun c r => RE.seq (.ch (.lit c)) r) .eps

/-- Source `c+` (greedy). -/
def plusC (c : CC) : RE := .seq (.ch c) (.starC c)

/-! ### The PDF trade extractor (`src/pdf_parser.py`, `extract_trades_from_pdf`)

The patterns of the source, transcribed as regex terms. -/

/-- Source `\(([A-Z]+)\)` — parenthesised ticker. -/
def tickerRE : RE :=
  .seq (.ch (.lit '(')) (.seq (.group (plusC .upper)) (.ch (.lit ')')))

/-- Source `SP\s+([^(]+)\(TICKER\)` — company name before the ticker. -/
def companyRE (ticker : String) : RE :=
  .seq (litRE "SP") (.seq (plusC .ws) (.seq (.group (plusC .notLParen))
    (.seq (.ch (.lit '(')) (.seq (litRE ticker) (.ch (.lit ')'))))))

/-- Source `(\d{2}/\d{2}/\d{4})` — MM/DD/YYYY-shaped date. -/
def dateRE : RE :=
  .group (.seq (.repC .digit 2) (.seq (.ch (.lit '/')) (.seq (.repC .digit 2)
    (.seq (.ch (.lit '/')) (.repC .digit 4)))))

/-- Source `D:\s*([^\n]+)` — primary description pattern. -/
def descRE1 : RE :=
  .seq (litRE "D:") (.seq (.starC .ws) (.group (plusC .notNewline)))

/-- Source `(?:New|Amended)\s*\n\s*D:?\s*([^\n]+)` — alternative description
pattern. -/
def descRE2 : RE :=
  .seq (.alt (litRE "New") (litRE "Amended")) (.seq (.starC .ws)
    (.seq (.ch (.lit '\n')) (.seq (.starC .ws) (.seq (.ch (.lit 'D'))
      (.seq (.optC (.lit ':')) (.seq (.starC .ws) (.group (plusC .notNewline))))))))

/-- Source `re.findall(r'(\d{2}/\d{2}/\d{4})', context)`. -/
def datesOf (cs : List Char) : List String :=
  (reFindIter dateRE cs).map fun m => String.mk m.2.2

/-- Source `dates[0] if len(dates) >= 1 else "Unknown"`. -/
def tdOf (ctx : List Char) : String := ((datesOf ctx).get? 0).getD "Unknown"

/-- Source `dates[1] if len(dates) >= 2 else "Unknown"`. -/
def ndOf (ctx : List Char) : String := ((datesOf ctx).get? 1).getD "Unknown"

/-- Company-name extraction: `re.search(company_pattern, context)` with
`"Unknown"` fallback. -/
def companyOf (ticker : String) (ctx : List Char) : String :=
  match reSearchCap (companyRE ticker) ctx with
  | some cap => pyStripS (String.mk cap)
  | none => "Unknown"

/-- Third description fallback: scan the context's lines for one that
(contains and) ends with `New` whose successor line starts with `D:`;
the description is that successor stripped of its `D:` prefix. -/
def descLineScan : List String → Option String
  | l1 :: l2 :: rest =>
    if hasSub "New".toList l1.toList && strEnds (pyStripS l1) "New"
        && strStarts (pyStripS l2) "D:" then
      some (pyStripS (String.mk ((pyStripS l2).toList.drop 2)))
    else descLineScan (l2 :: rest)
  | _ => none

/-- Full description resolution: primary pattern, then the alternative
pattern, then the line scan, defaulting to `"Unknown"`; finally
whitespace runs are collapsed and the result stripped. -/
def descOf (ctx : List Char) : String :=
  let d0 :=
    match reSearchCap descRE1 ctx with
    | some cap => pyStripS (String.mk cap)
    | none =>
      match reSearchCap descRE2 ctx with
      | some cap => pyStripS (String.mk cap)
      | none => "Unknown"
  let d1 :=
    if d0 = "Unknown" then
      match descLineScan (splitNl ctx) with
      | some d => d
      | none => "Unknown"
    else d0
  collapseWs d1

/-- The trade-record dictionaries of the source: a fully parsed trade,
the "could not identify trades" placeholder, or the exception record. -/
inductive TradeRecord where
  | parsed (stock_name ticker filing_status description transaction_date
      notification_date : String)
  | placeholder (note pdf_text_sample : String)
  | failure (error note : String)
deriving DecidableEq, Repr

abbrev TradeKey := String × String × String
abbrev TradeQuad := String × String × String × String

/-- Loop state of the extraction loop: the `processed_trades` key set and
the `trades` accumulator. -/
structure StateB where
  processed : List TradeKey
  trades : List TradeRecord
deriving DecidableEq

/-- The key of a parsed record: (ticker, transaction date, notification
date). -/
def keyOfR : TradeRecord → Option TradeKey
  | .parsed _ tk _ _ td nd => some (tk, td, nd)
  | _ => none

/-- The quadruple of a parsed record: key plus description — the
comprehension `[(t["ticker"], ..., t["description"]) for t in trades]`. -/
def quadOfR : TradeRecord → Option TradeQuad
  | .parsed _ tk _ d td nd => some (tk, td, nd, d)
  | _ => none

def quadsOf (ts : List TradeRecord) : List TradeQuad :=
  ts.filterMap quadOfR

/-- Candidate key `(ticker, transaction_date, notification_date)` for a
(ticker, context) candidate. -/
def keyB (c : String × List Char) : TradeKey := (c.1, tdOf c.2, ndOf c.2)

def quadB (c : String × List Char) : TradeQuad :=
  (c.1, tdOf c.2, ndOf c.2, descOf c.2)

/-- The appended trade dictionary, with `filing_status` fixed to
`"New"`. -/
def mkTradeB (c : String × List Char) : TradeRecord :=
  .parsed (companyOf c.1 c.2) c.1 "New" (descOf c.2) (tdOf c.2) (ndOf c.2)

/-- One iteration of the ticker loop, in the source's order: skip when
fewer than two dates are found; skip already-processed keys (except for
ticker NVDA); skip NVDA quadruples already emitted; record the key; skip
candidates with unresolved description or transaction date; otherwise
append the trade. -/
def stepB (s : StateB) (c : String × List Char) : StateB :=
  if (datesOf c.2).length < 2 then s
  else if keyB c ∈ s.processed ∧ c.1 ≠ "NVDA" then s
  else if c.1 = "NVDA" ∧ quadB c ∈ quadsOf s.trades then s
  else if descOf c.2 = "Unknown" ∨ tdOf c.2 = "Unknown" then
    { processed := keyB c :: s.processed, trades := s.trades }
  else
    { processed := keyB c :: s.processed, trades := s.trades ++ [mkTradeB c] }

/-- Number of emitted records bearing a given key. -/
def keyCount (ts : List TradeRecord) (k : TradeKey) : Nat :=
  (ts.filter fun r => decide (keyOfR r = some k)).length

/-- Number of emitted records bearing a given quadruple. -/
def quadCount (ts : List TradeRecord) (q : TradeQuad) : Nat :=
  (ts.filter fun r => decide (quadOfR r = some q)).length

/-- Context window: 200 characters before to 400 characters after the
ticker match (Python slice `full_text[max(0,pos-200):min(len,pos+400)]`). -/
def contextAt (full : List Char) (pos : Nat) : List Char :=
  (full.drop (pos - 200)).take (min full.length (pos + 400) - (pos - 200))

/-- All ticker candidates of the text, each with its context window. -/
def tickerCands (full : List Char) : List (String × List Char) :=
  (reFindIter tickerRE full).map fun m => (String.mk m.2.2, contextAt full m.1)

/-- The whole ticker-anchored extraction loop. -/
def strategyB (full : List Char) : List TradeRecord :=
  ((tickerCands full).foldl stepB ⟨[], []⟩).trades

/-- Source `page_text.replace('\x00', '')`. -/
def removeNulls (s : String) : String :=
  String.mk (s.toList.filter fun c => c ≠ '\x00')

/-- Source `full_text` accumulation: null bytes removed per page, `"\n"` after
each page. -/
def buildFullText (pages : List String) : String :=
  pages.foldl (fun acc p => acc ++ removeNulls p ++ "\n") ""

/-- Source `full_text[:500] + "..." if len(full_text) > 500 else full_text`. -/
def sampleOf (full : List Char) : String :=
  if 500 < full.length then String.mk (full.take 500) ++ "..." else String.mk full

/-- Source `extract_trades_from_pdf`: on an extraction exception, the single
error record; otherwise the strategy's trades, or the single diagnostic
placeholder when no trade was found. -/
def extract_trades_from_pdf (input : Except String (List String)) : List TradeRecord :=
  match input with
  | .error e => [.failure e "Failed to parse PDF. Manual review required."]
  | .ok pages =>
    let full := (buildFullText pages).toList
    let ts := strategyB full
    if ts.isEmpty then
      [.placeholder "Automatic parsing could not identify specific trades."
        (sampleOf full)]
    else ts

/-- The filing status carried by a parsed record. -/
def statusOfR : TradeRecord → Option String
  | .parsed _ _ fs _ _ _ => some fs
  | _ => none

/-! ### The disclosure tracker (`src/tracker.py`, `DisclosureTracker`) -/

/-- A `<td>` cell of the results table: its text and the `href` of its
first hyperlink, when one with an `href` attribute exists. -/
structure Cell where
  text : String
  href : Option String
deriving DecidableEq, Repr

/-- A `<tr>` row of the results table. -/
structure Row where
  cells : List Cell
deriving DecidableEq, Repr

/-- A search response as seen by the tracker: the raw response text and
the `soup.find('table', class_='table')` result — `none` when no such
table exists, otherwise all of the table's `<tr>` rows (header
included). -/
structure Page where
  text : String
  table : Option (List Row)
deriving DecidableEq, Repr

/-- The per-year count dictionary, as an insertion-ordered association
list (Python `dict` semantics for the keys used here). -/
abbrev CountMap := List (String × Nat)

/-- Source `self.expected_disclosure_counts.get(year, 0)`. -/
def getCount (m : CountMap) (y : String) : Nat := (List.lookup y m).getD 0

/-- Source `self.expected_disclosure_counts[year] = n` (replace or append). -/
def setCount : CountMap → String → Nat → CountMap
  | [], y, n => [(y, n)]
  | (k, v) :: t, y, n =>
    if k = y then (k, n) :: t else (k, v) :: setCount t y n

/-- The JSON state file: `processed_disclosures`, the legacy
`total_disclosure_count`, and `total_disclosure_counts_by_year`. -/
structure StoredData where
  processed : List String
  legacyTotal : Option Nat
  countsByYear : CountMap
deriving DecidableEq, Repr

/-- In-memory tracker state: the `known_disclosures` set (modelled as a
list with membership-only semantics), the per-year counts, and the
current content of the data file (`none` when absent or unreadable). -/
structure TrackerState where
  known : List String
  counts : CountMap
  file : Option StoredData
deriving DecidableEq, Repr

/-- Source `_save_data`: overwrite the data file with the current state; the
legacy count field is never re-written. -/
def save_data (st : TrackerState) : TrackerState :=
  { st with file := some ⟨st.known, none, st.counts⟩ }

/-- Source `_load_data`: empty state on a missing/unreadable file; otherwise the
stored identity list as a set and the stored counts, migrating a legacy
aggregate count to the configured filing year. -/
def load_data (year : String) : Option StoredData → TrackerState
  | none => ⟨[], [], none⟩
  | some d =>
    { known := d.processed.dedup
      counts :=
        match d.legacyTotal with
        | some n => [(year, n)]
        | none => d.countsByYear
      file := some d }

/-- Source `Showing\s+\d+\s+to\s+\d+\s+of\s+(\d+)\s+entries`. -/
def showingRE : RE :=
  .seq (litRE "Showing") (.seq (plusC .ws) (.seq (plusC .digit) (.seq (plusC .ws)
    (.seq (litRE "to") (.seq (plusC .ws) (.seq (plusC .digit) (.seq (plusC .ws)
    (.seq (litRE "of") (.seq (plusC .ws) (.seq (.group (plusC .digit))
    (.seq (plusC .ws) (litRE "entries"))))))))))))

/-- Source `of\s+(\d+)\s+entries`. -/
def ofEntriesRE : RE :=
  .seq (litRE "of") (.seq (plusC .ws) (.seq (.group (plusC .digit))
    (.seq (plusC .ws) (litRE "entries"))))

/-- Source `_extract_total_disclosure_count`: the "Showing X to Y of N entries"
phrase, else the bare "of N entries" phrase, else the number of data rows
of the results table (header excluded), else 0. -/
def extract_total_disclosure_count (p : Page) : Nat :=
  match reSearchCap showingRE p.text.toList with
  | some cap => digitsToNat cap
  | none =>
    match reSearchCap ofEntriesRE p.text.toList with
    | some cap => digitsToNat cap
    | none =>
      match p.table with
      | some rows => (rows.drop 1).length
      | none => 0

/-- A disclosure entry parsed from a results-table row. -/
structure Disclosure where
  name : String
  office : String
  filing_year : String
  filing_type : String
  pdf_url : String
  disclosure_id : String
deriving DecidableEq, Repr

/-- Source `disclosure_id = f"{name}_{filing_type}_{pdf_url}"`. -/
def disclosureId (name ftype url : String) : String :=
  name ++ "_" ++ ftype ++ "_" ++ url

/-- Parse one data row: requires at least four cells and a hyperlink in
the filing cell; a relative `href` is prefixed with the site host. -/
def rowToCandidate (row : Row) : Option Disclosure :=
  match row.cells with
  | c0 :: c1 :: c2 :: c3 :: _ =>
    let name := pyStripS c0.text
    let ftype := pyStripS c3.text
    match c3.href with
    | some href =>
      let url :=
        if strStarts href "http" then href
        else "https://disclosures-clerk.house.gov" ++ href
      some ⟨name, pyStripS c1.text, pyStripS c2.text, ftype, url,
        disclosureId name ftype url⟩
    | none => none
  | _ => none

/-- Source `check_for_new_disclosures` (success path of the two HTTP requests):
extract the aggregate count, compare with the stored expected count for
the queried year and persist an increase immediately, then parse the
table rows and keep the candidates whose identity is not yet known.
Returns (new disclosures, count-increased flag, updated state). -/
def check_for_new_disclosures (st : TrackerState) (year : String) (p : Page) :
    List Disclosure × Bool × TrackerState :=
  let cur := extract_total_disclosure_count p
  let expected := getCount st.counts year
  let hasNew : Bool := decide (expected < cur)
  let st1 :=
    if expected < cur then save_data { st with counts := setCount st.counts year cur }
    else st
  match p.table with
  | none => ([], hasNew, st1)
  | some rows =>
    (((rows.drop 1).filterMap rowToCandidate).filter
        (fun d => !(st.known.contains d.disclosure_id)),
      hasNew, st1)

/-- Source `set.add`: membership-preserving idempotent insert. -/
def addId (l : List String) (x : String) : List String :=
  if x ∈ l then l else l ++ [x]

/-- The document bytes as the PDF text extractor will see them. -/
abbrev PdfDoc := Except String (List String)

/-- The external collaborators of the processing loop: document fetch
(`download_pdf`) and email notification (`send_email_notification`). -/
structure Collab where
  fetch : String → Option PdfDoc
  send : Disclosure → List TradeRecord → PdfDoc → Bool

/-- The body of the `process_new_disclosures` loop for one disclosure:
fetch the document (skip on failure), extract trades, send the
notification, and only on a truthful send record the identity and
persist.  Also returns the identities for which a notification send was
attempted. -/
def processOne (c : Collab) (st : TrackerState) (d : Disclosure) :
    TrackerState × List String :=
  match c.fetch d.pdf_url with
  | none => (st, [])
  | some pdf =>
    let trades := extract_trades_from_pdf pdf
    if c.send d trades pdf then
      (save_data { st with known := addId st.known d.disclosure_id },
        [d.disclosure_id])
    else (st, [d.disclosure_id])

/-- The `for disclosure in new_disclosures` loop. -/
def processList (c : Collab) : TrackerState → List Disclosure →
    TrackerState × List String
  | st, [] => (st, [])
  | st, d :: ds =>
    let r1 := processOne c st d
    let r2 := processList c r1.1 ds
    (r2.1, r1.2 ++ r2.2)

/-- Source `process_new_disclosures`: one full cycle. -/
def process_new_disclosures (c : Collab) (year : String) (st : TrackerState)
    (p : Page) : TrackerState × List String :=
  let r := check_for_new_disclosures st year p
  processList c r.2.2 r.1

/-- A sequence of scheduled cycles, one page observed per cycle. -/
def runCycles (c : Collab) (year : String) : TrackerState → List Page →
    TrackerState × List String
  | st, [] => (st, [])
  | st, p :: ps =>
    let r1 := process_new_disclosures c year st p
    let r2 := runCycles c year r1.1 ps
    (r2.1, r1.2 ++ r2.2)

/-! ### Concrete fixtures used by witnesses and counterexamples -/

/-- A well-formed results-table data row. -/
def rowP : Row :=
  ⟨[⟨"Pelosi, Nancy", none⟩, ⟨"CA-11", none⟩, ⟨"2025", none⟩,
    ⟨"PTR Original", some "/ptr.pdf"⟩]⟩

/-- The identity the row above produces. -/
def idP : String :=
  "Pelosi, Nancy_PTR Original_https://disclosures-clerk.house.gov/ptr.pdf"

/-- A results page listing the same filing twice (header row first). -/
def pageDup : Page := ⟨"", some [⟨[]⟩, rowP, rowP]⟩

/-- Collaborators whose fetch always succeeds and whose send always
reports success. -/
def collabTrue : Collab := ⟨fun _ => some (.ok ["x"]), fun _ _ _ => true⟩

/-- Collaborators whose fetch succeeds and whose send always fails. -/
def collabFalse : Collab := ⟨fun _ => some (.ok ["x"]), fun _ _ _ => false⟩

/-- Fresh tracker state. -/
def stEmpty : TrackerState := ⟨[], [], none⟩

/-- Tracker state that already knows the row's identity. -/
def stKnown : TrackerState := ⟨[idP], [], none⟩

/-- Tracker state recording expected count 5 for year 2024. -/
def stCount5 : TrackerState := ⟨[], [("2024", 5)], none⟩

/-- A page whose response text reports 6 entries. -/
def pageOf6 : Page := ⟨"of 6 entries", none⟩

/-- A disclosure record as `check_for_new_disclosures` would emit it. -/
def discP : Disclosure :=
  ⟨"Pelosi, Nancy", "CA-11", "2025", "PTR Original",
    "https://disclosures-clerk.house.gov/ptr.pdf", idP⟩

/-- Document text whose single ticker candidate has two resolved dates
but no resolvable description. -/
def textNoDesc : List Char := "XX (AAPL) 01/02/2025 01/03/2025 end".toList

/-- Document text yielding one fully parsed trade. -/
def textOneTrade : List Char :=
  "SP NVIDIA Corp (NVDA) 01/02/2025 01/03/2025 D: call options\n".toList

/-! ## Theorems -/

/-! ### General helper lemmas -/

theorem mk_toList (s : String) : String.mk s.toList = s := rfl

theorem toList_inj {s t : String} (h : s.toList = t.toList) : s = t := by
  rw [← mk_toList s, ← mk_toList t, h]

/-- C9: persisting the repository state and loading the store back
reproduces the same identity set (membership for membership) and the very
same year-to-count map. -/
theorem c9_persist_load_roundtrip (year : String) (st : TrackerState) :
    (∀ x, x ∈ (load_data year (save_data st).file).known ↔ x ∈ st.known) ∧
    (load_data year (save_data st).file).counts = st.counts := by
  constructor
  · intro x
    simp [load_data, save_data, List.mem_dedup]
  · rfl

/-- C5: the extractor is total — an internal extraction failure is
converted into the single error record carrying the message and the
manual-review note, and the result list is never empty. -/
theorem c5_extract_never_raises :
    (∀ e, extract_trades_from_pdf (.error e) =
      [.failure e "Failed to parse PDF. Manual review required."]) ∧
    (∀ input, (extract_trades_from_pdf input).isEmpty = false) := by
  constructor
  · intro e; rfl
  · intro input
    match input with
    | .error e => rfl
    | .ok pages =>
      simp only [extract_trades_from_pdf]
      split
      · rfl
      · next h => simpa using h

/-- C5 witness: the error branch at a concrete message. -/
theorem c5_witness :
    extract_trades_from_pdf (.error "boom") =
      [.failure "boom" "Failed to parse PDF. Manual review required."] :=
  c5_extract_never_raises.1 "boom"

/-- C6: when the strategy parses zero trades, the extractor returns
exactly one diagnostic placeholder with a non-empty note whose text
sample is the full source text when it has at most 500 characters, and
its first 500 characters suffixed with an ellipsis otherwise. -/
theorem c6_zero_records_placeholder (pages : List String)
    (h : strategyB ((buildFullText pages).toList) = []) :
    extract_trades_from_pdf (.ok pages) =
      [.placeholder "Automatic parsing could not identify specific trades."
        (sampleOf ((buildFullText pages).toList))] ∧
    ("Automatic parsing could not identify specific trades." : String) ≠ "" ∧
    (500 < ((buildFullText pages).toList).length →
      sampleOf ((buildFullText pages).toList) =
        String.mk (((buildFullText pages).toList).take 500) ++ "...") ∧
    (((buildFullText pages).toList).length ≤ 500 →
      sampleOf ((buildFullText pages).toList) = buildFullText pages) := by
  refine ⟨?_, by decide, ?_, ?_⟩
  · have hd : strategyB (buildFullText pages).data = [] := h
    simp [extract_trades_from_pdf, hd]
  · intro hlen
    unfold sampleOf
    rw [if_pos hlen]
  · intro hlen
    unfold sampleOf
    rw [if_neg (by omega)]
    exact mk_toList _

/-- C6 witness: a one-page document with no ticker yields the
placeholder. -/
theorem c6_witness :
    extract_trades_from_pdf (.ok ["hello"]) =
      [.placeholder "Automatic parsing could not identify specific trades."
        (sampleOf ((buildFullText ["hello"]).toList))] :=
  (c6_zero_records_placeholder ["hello"] (by decide)).1

/-- Splitting at a separator absent from both left parts is unambiguous. -/
theorem append_sep_inj : ∀ {a b x y : List Char},
    '_' ∉ a → '_' ∉ b → a ++ '_' :: x = b ++ '_' :: y → a = b ∧ x = y := by
  intro a
  induction a with
  | nil =>
    intro b x y _ hb h
    cases b with
    | nil => simpa using h
    | cons c bs =>
      simp only [List.nil_append, List.cons_append, List.cons.injEq] at h
      exact absurd (h.1 ▸ List.mem_cons_self c bs) (h.1 ▸ hb)
  | cons c as ih =>
    intro b x y ha hb h
    cases b with
    | nil =>
      simp only [List.nil_append, List.cons_append, List.cons.injEq] at h
      exact absurd (h.1 ▸ List.mem_cons_self c as) (fun hc => ha (h.1 ▸ hc))
    | cons d bs =>
      simp only [List.cons_append, List.cons.injEq] at h
      obtain ⟨rfl, htl⟩ := h
      have := ih (fun hm => ha (List.mem_cons_of_mem _ hm))
        (fun hm => hb (List.mem_cons_of_mem _ hm)) htl
      exact ⟨by rw [this.1], this.2⟩

/-- C8: the disclosure identity is a deterministic pure function of the
triple, and over triples whose name and filing type avoid the separator
character (the source site's character set), identity equality holds
exactly for equal triples — the identity is injective there. -/
theorem c8_identity_injective (n1 t1 u1 n2 t2 u2 : String)
    (hn1 : '_' ∉ n1.toList) (ht1 : '_' ∉ t1.toList)
    (hn2 : '_' ∉ n2.toList) (ht2 : '_' ∉ t2.toList) :
    disclosureId n1 t1 u1 = disclosureId n2 t2 u2 ↔
      (n1 = n2 ∧ t1 = t2 ∧ u1 = u2) := by
  constructor
  · intro h
    have hl : n1.toList ++ '_' :: (t1.toList ++ '_' :: u1.toList) =
        n2.toList ++ '_' :: (t2.toList ++ '_' :: u2.toList) := by
      have h' := congrArg String.toList h
      simpa [disclosureId, String.toList] using h'
    obtain ⟨e1, e2⟩ := append_sep_inj hn1 hn2 hl
    obtain ⟨e3, e4⟩ := append_sep_inj ht1 ht2 e2
    exact ⟨toList_inj e1, toList_inj e3, toList_inj e4⟩
  · rintro ⟨rfl, rfl, rfl⟩; rfl

/-- C8 witness: the characterisation applied at a concrete triple. -/
theorem c8_witness :
    ("Pelosi, Nancy" : String) = "Pelosi, Nancy" ∧
    ("PTR Original" : String) = "PTR Original" ∧
    ("https://disclosures-clerk.house.gov/ptr.pdf" : String) =
      "https://disclosures-clerk.house.gov/ptr.pdf" :=
  (c8_identity_injective _ _ _ _ _ _ (by decide) (by decide) (by decide)
    (by decide)).mp rfl

/-- C2: the aggregate-count extractor obeys the
Showing-phrase / of-phrase / table-row-count / zero precedence, and the
four concrete behaviours the specification lists. -/
theorem c2_total_count_precedence :
    (∀ (p : Page) cap, reSearchCap showingRE p.text.toList = some cap →
      extract_total_disclosure_count p = digitsToNat cap) ∧
    (∀ (p : Page) cap, reSearchCap showingRE p.text.toList = none →
      reSearchCap ofEntriesRE p.text.toList = some cap →
      extract_total_disclosure_count p = digitsToNat cap) ∧
    (∀ (p : Page) rows, reSearchCap showingRE p.text.toList = none →
      reSearchCap ofEntriesRE p.text.toList = none → p.table = some rows →
      extract_total_disclosure_count p = (rows.drop 1).length) ∧
    (∀ p : Page, reSearchCap showingRE p.text.toList = none →
      reSearchCap ofEntriesRE p.text.toList = none → p.table = none →
      extract_total_disclosure_count p = 0) ∧
    extract_total_disclosure_count ⟨"Showing 1 to 10 of 233 entries", none⟩ = 233 ∧
    extract_total_disclosure_count ⟨"of 45 entries", none⟩ = 45 ∧
    extract_total_disclosure_count ⟨"results", some [⟨[]⟩, ⟨[]⟩, ⟨[]⟩, ⟨[]⟩]⟩ = 3 ∧
    extract_total_disclosure_count ⟨"results", none⟩ = 0 := by
  refine ⟨?_, ?_, ?_, ?_, by decide, by decide, by decide, by decide⟩ <;>
    · intros
      unfold extract_total_disclosure_count
      simp_all

/-- C2 witness: the second precedence clause at a concrete page. -/
theorem c2_witness :
    extract_total_disclosure_count ⟨"of 6 entries", none⟩ =
      digitsToNat ("6".toList) :=
  c2_total_count_precedence.2.1 ⟨"of 6 entries", none⟩ ("6".toList)
    (by decide) (by decide)

theorem getCount_setCount (m : CountMap) (y : String) (n : Nat) :
    getCount (setCount m y n) y = n := by
  induction m with
  | nil => simp [setCount, getCount, List.lookup]
  | cons kv t ih =>
    obtain ⟨k, v⟩ := kv
    by_cases hk : k = y
    · subst hk
      simp [setCount, getCount, List.lookup]
    · simp only [setCount, if_neg hk, getCount, List.lookup]
      rw [beq_eq_false_iff_ne.mpr (fun h => hk h.symm)]
      exact ih

/-- C3: when the extracted total exceeds the stored expected count for
the queried year the check reports an increase and stores and persists
the new total (independently of the returned filing list); otherwise it
reports no increase and leaves counts and file untouched. -/
theorem c3_count_signal (st : TrackerState) (year : String) (p : Page) :
    (getCount st.counts year < extract_total_disclosure_count p →
      (check_for_new_disclosures st year p).2.1 = true ∧
      getCount (check_for_new_disclosures st year p).2.2.counts year =
        extract_total_disclosure_count p ∧
      (check_for_new_disclosures st year p).2.2.file =
        some ⟨st.known, none,
          setCount st.counts year (extract_total_disclosure_count p)⟩) ∧
    (extract_total_disclosure_count p ≤ getCount st.counts year →
      (check_for_new_disclosures st year p).2.1 = false ∧
      (check_for_new_disclosures st year p).2.2.counts = st.counts ∧
      (check_for_new_disclosures st year p).2.2.file = st.file) := by
  constructor
  · intro h
    unfold check_for_new_disclosures
    cases htab : p.table <;>
      simp [htab, h, save_data, getCount_setCount]
  · intro h
    have h' : ¬ getCount st.counts year < extract_total_disclosure_count p :=
      Nat.not_lt.mpr h
    unfold check_for_new_disclosures
    cases htab : p.table <;> simp [htab, h']

/-- C3 witness: stored count 5 for year 2024 observing total 6 reports an
increase and persists 6. -/
theorem c3_witness :
    (check_for_new_disclosures stCount5 "2024" pageOf6).2.1 = true ∧
    getCount (check_for_new_disclosures stCount5 "2024" pageOf6).2.2.counts
      "2024" = extract_total_disclosure_count pageOf6 ∧
    (check_for_new_disclosures stCount5 "2024" pageOf6).2.2.file =
      some ⟨stCount5.known, none, setCount stCount5.counts "2024"
        (extract_total_disclosure_count pageOf6)⟩ :=
  (c3_count_signal stCount5 "2024" pageOf6).1 (by decide)

/-- C7: assuming the document fetch succeeds, the filing identity is
recorded and the state persisted exactly when the notification send
returns success; a failed send leaves the tracker state unchanged. -/
theorem c7_record_iff_send (c : Collab) (st : TrackerState) (d : Disclosure)
    (pdf : PdfDoc) (h : c.fetch d.pdf_url = some pdf) :
    (c.send d (extract_trades_from_pdf pdf) pdf = true →
      (processOne c st d).1.known = addId st.known d.disclosure_id ∧
      (processOne c st d).1.file =
        some ⟨addId st.known d.disclosure_id, none, st.counts⟩ ∧
      (processOne c st d).2 = [d.disclosure_id]) ∧
    (c.send d (extract_trades_from_pdf pdf) pdf = false →
      (processOne c st d).1 = st) := by
  constructor <;> intro hs <;> simp [processOne, h, hs, save_data]

/-- C7 witness: the send-succeeds branch at concrete collaborators. -/
theorem c7_witness :
    (processOne collabTrue stEmpty discP).1.known =
      addId stEmpty.known discP.disclosure_id ∧
    (processOne collabTrue stEmpty discP).1.file =
      some ⟨addId stEmpty.known discP.disclosure_id, none, stEmpty.counts⟩ ∧
    (processOne collabTrue stEmpty discP).2 = [discP.disclosure_id] :=
  (c7_record_iff_send collabTrue stEmpty discP (.ok ["x"]) rfl).1 rfl

/-! ### The extraction loop invariants -/

theorem mem_stepB_trades {s : StateB} {c : String × List Char}
    {r : TradeRecord} (hr : r ∈ (stepB s c).trades) :
    r ∈ s.trades ∨ r = mkTradeB c := by
  unfold stepB at hr
  split at hr
  · exact .inl hr
  split at hr
  · exact .inl hr
  split at hr
  · exact .inl hr
  split at hr
  · exact .inl hr
  · rcases List.mem_append.mp hr with h | h
    · exact .inl h
    · exact .inr (List.mem_singleton.mp h)

theorem foldl_stepB_pres (P : StateB → Prop)
    (hP : ∀ s c, P s → P (stepB s c)) :
    ∀ (l : List (String × List Char)) (s : StateB), P s → P (l.foldl stepB s) := by
  intro l
  induction l with
  | nil => intro s h; exact h
  | cons c t ih => intro s h; exact ih _ (hP _ _ h)

/-- C10: every record the ticker-anchored strategy emits is a parsed
record whose filing status is the literal `"New"`; the status is never
taken from the document text. -/
theorem c10_status_always_new (full : List Char) (r : TradeRecord)
    (h : r ∈ strategyB full) : statusOfR r = some "New" := by
  have key := foldl_stepB_pres
    (fun s => ∀ r ∈ s.trades, statusOfR r = some "New")
    (fun s c hs r hr => by
      rcases mem_stepB_trades hr with h' | h'
      · exact hs r h'
      · rw [h']; rfl)
    (tickerCands full) ⟨[], []⟩ (by intro r hr; simp at hr)
  exact key r h

/-- C10 witness: the concrete one-trade document's record has status
`"New"`. -/
theorem c10_witness :
    statusOfR (.parsed "NVIDIA Corp" "NVDA" "New" "call options"
      "01/02/2025" "01/03/2025") = some "New" :=
  c10_status_always_new textOneTrade _ (by decide)

/-! ### Change-detector and orchestrator dedup lemmas -/

theorem check_known_unchanged (st : TrackerState) (year : String) (p : Page) :
    (check_for_new_disclosures st year p).2.2.known = st.known := by
  unfold check_for_new_disclosures
  cases p.table <;> dsimp only <;> split <;> rfl

theorem check_new_not_known (st : TrackerState) (year : String) (p : Page)
    (d : Disclosure) (h : d ∈ (check_for_new_disclosures st year p).1) :
    d.disclosure_id ∉ st.known := by
  unfold check_for_new_disclosures at h
  cases htab : p.table with
  | none => rw [htab] at h; simp at h
  | some rows =>
    rw [htab] at h
    dsimp only at h
    have := (List.mem_filter.mp h).2
    simpa using this

theorem processOne_known_mono (c : Collab) (st : TrackerState)
    (d : Disclosure) (x : String) (h : x ∈ st.known) :
    x ∈ (processOne c st d).1.known := by
  unfold processOne
  cases c.fetch d.pdf_url with
  | none => exact h
  | some pdf =>
    dsimp only
    split
    · simp only [save_data, addId]
      split
      · exact h
      · exact List.mem_append_left _ h
    · exact h

theorem processOne_notified (c : Collab) (st : TrackerState)
    (d : Disclosure) (x : String) (h : x ∈ (processOne c st d).2) :
    x = d.disclosure_id := by
  unfold processOne at h
  cases hf : c.fetch d.pdf_url with
  | none => rw [hf] at h; simp at h
  | some pdf =>
    rw [hf] at h
    dsimp only at h
    split at h <;> simpa using h

theorem processList_inv (c : Collab) (ds : List Disclosure) :
    ∀ (st : TrackerState) (x : String), x ∈ st.known →
      (∀ d ∈ ds, d.disclosure_id ≠ x) →
      x ∈ (processList c st ds).1.known ∧ x ∉ (processList c st ds).2 := by
  induction ds with
  | nil =>
    intro st x hx _
    exact ⟨hx, by simp [processList]⟩
  | cons d t ih =>
    intro st x hx hds
    simp only [processList]
    have h1 : x ∈ (processOne c st d).1.known :=
      processOne_known_mono c st d x hx
    have h2 := ih (processOne c st d).1 x h1
      (fun d' hd' => hds d' (List.mem_cons_of_mem _ hd'))
    refine ⟨h2.1, ?_⟩
    intro hmem
    rcases List.mem_append.mp hmem with hl | hl
    · exact hds d (List.mem_cons_self _ _) (processOne_notified c st d x hl).symm
    · exact h2.2 hl

theorem cycle_inv (c : Collab) (year : String) (st : TrackerState) (p : Page)
    (x : String) (h : x ∈ st.known) :
    x ∈ (process_new_disclosures c year st p).1.known ∧
      x ∉ (process_new_disclosures c year st p).2 := by
  unfold process_new_disclosures
  have hknown : x ∈ (check_for_new_disclosures st year p).2.2.known := by
    rw [check_known_unchanged]; exact h
  refine processList_inv c _ _ x hknown ?_
  intro d hd heq
  exact check_new_not_known st year p d hd (heq ▸ h)

/-- C1 (amended): an identity already in the known set is never in the
list the change detector returns, and an identity recorded in the
repository before a cycle starts is never notified during that cycle or
any later one. -/
theorem c1_amended_dedup :
    (∀ (st : TrackerState) (year : String) (p : Page) (x : String),
      x ∈ st.known →
      x ∉ (check_for_new_disclosures st year p).1.map Disclosure.disclosure_id) ∧
    (∀ (c : Collab) (year : String) (st : TrackerState) (pages : List Page)
      (x : String), x ∈ st.known → x ∉ (runCycles c year st pages).2) := by
  constructor
  · intro st year p x hx hmem
    obtain ⟨d, hd, hid⟩ := List.mem_map.mp hmem
    exact check_new_not_known st year p d hd (hid ▸ hx)
  · intro c year st pages
    induction pages generalizing st with
    | nil => intro x hx; simp [runCycles]
    | cons p ps ih =>
      intro x hx
      simp only [runCycles]
      intro hmem
      have hcy := cycle_inv c year st p x hx
      rcases List.mem_append.mp hmem with hl | hl
      · exact hcy.2 hl
      · exact ih _ x hcy.1 hl

/-- C1 counterexample: with an empty repository, a results page listing
the same filing in two rows, and a notifier that always succeeds, a
single `process_new_disclosures` cycle notifies the same identity twice —
the claimed "each disclosure is reported exactly once" fails. -/
theorem c1_counterexample :
    ((process_new_disclosures collabTrue "2025" stEmpty pageDup).2).count idP
      = 2 := by decide

/-- C1 witness: the amended statement at a concrete known identity. -/
theorem c1_witness :
    idP ∉ ((check_for_new_disclosures stKnown "2025" pageDup).1.map
      Disclosure.disclosure_id) ∧
    idP ∉ (runCycles collabTrue "2025" stKnown [pageDup]).2 :=
  ⟨c1_amended_dedup.1 stKnown "2025" pageDup idP (by decide),
   c1_amended_dedup.2 collabTrue "2025" stKnown [pageDup] idP (by decide)⟩

/-! ### Dedup counting lemmas for the extraction loop -/

theorem keyCount_append (ts : List TradeRecord) (r : TradeRecord)
    (k : TradeKey) :
    keyCount (ts ++ [r]) k =
      keyCount ts k + (if keyOfR r = some k then 1 else 0) := by
  by_cases h : keyOfR r = some k <;>
    simp [keyCount, List.filter_append, h]

theorem quadCount_append (ts : List TradeRecord) (r : TradeRecord)
    (q : TradeQuad) :
    quadCount (ts ++ [r]) q =
      quadCount ts q + (if quadOfR r = some q then 1 else 0) := by
  by_cases h : quadOfR r = some q <;>
    simp [quadCount, List.filter_append, h]

theorem quad_mem_iff (ts : List TradeRecord) (q : TradeQuad) :
    q ∈ quadsOf ts ↔ 1 ≤ quadCount ts q := by
  rw [quadsOf, List.mem_filterMap]
  constructor
  · rintro ⟨r, hr, hq⟩
    have hmem : r ∈ ts.filter fun r => decide (quadOfR r = some q) :=
      List.mem_filter.mpr ⟨hr, by simp [hq]⟩
    have := List.length_pos.mpr (List.ne_nil_of_mem hmem)
    exact this
  · intro h1
    have hne : (ts.filter fun r => decide (quadOfR r = some q)) ≠ [] := by
      intro hnil
      rw [quadCount, hnil] at h1
      simp at h1
    obtain ⟨r, hr⟩ := List.exists_mem_of_ne_nil _ hne
    have hsplit := List.mem_filter.mp hr
    exact ⟨r, hsplit.1, by simpa using hsplit.2⟩

theorem quadOfR_key {r : TradeRecord} {q : TradeQuad}
    (h : quadOfR r = some q) : keyOfR r = some (q.1, q.2.1, q.2.2.1) := by
  cases r with
  | parsed sn tk fs d td nd =>
    rw [quadOfR] at h
    injection h with h
    subst h
    rfl
  | placeholder n s => exact absurd h (by simp [quadOfR])
  | failure e n => exact absurd h (by simp [quadOfR])

theorem quadCount_le_keyCount (ts : List TradeRecord) (q : TradeQuad) :
    quadCount ts q ≤ keyCount ts (q.1, q.2.1, q.2.2.1) := by
  induction ts with
  | nil => simp [quadCount, keyCount]
  | cons r t ih =>
    simp only [quadCount, keyCount, List.filter_cons] at ih ⊢
    by_cases hq : quadOfR r = some q
    · rw [if_pos (by simpa using hq),
        if_pos (by simpa using quadOfR_key hq)]
      simpa using ih
    · rw [if_neg (by simpa using hq)]
      split
      · exact Nat.le_succ_of_le ih
      · exact ih

theorem stepB_invA {k : TradeKey} (hk : k.1 ≠ "NVDA") (s : StateB)
    (c : String × List Char)
    (h : keyCount s.trades k ≤ 1 ∧
      (1 ≤ keyCount s.trades k → k ∈ s.processed)) :
    keyCount (stepB s c).trades k ≤ 1 ∧
      (1 ≤ keyCount (stepB s c).trades k → k ∈ (stepB s c).processed) := by
  unfold stepB
  split
  · exact h
  split
  · exact h
  split
  · exact h
  split
  · exact ⟨h.1, fun h1 => List.mem_cons_of_mem _ (h.2 h1)⟩
  rename_i hA hB hC hD
  dsimp only
  rw [keyCount_append]
  by_cases hek : keyB c = k
  · have hc1 : c.1 ≠ "NVDA" := by
      have he : c.1 = k.1 := congrArg Prod.fst hek
      rw [he]; exact hk
    have hnm : keyB c ∉ s.processed := fun hm => hB ⟨hm, hc1⟩
    have hzero : keyCount s.trades k = 0 := by
      by_contra hnz
      exact hnm (hek ▸ h.2 (Nat.one_le_iff_ne_zero.mpr hnz))
    rw [if_pos (by rw [← hek]; rfl), hzero]
    refine ⟨le_refl 1, fun _ => ?_⟩
    exact hek ▸ List.mem_cons_self (keyB c) s.processed
  · rw [show keyOfR (mkTradeB c) = some (keyB c) from rfl,
      if_neg (fun hsome => hek (Option.some.inj hsome))]
    exact ⟨by simpa using h.1,
      fun h1 => List.mem_cons_of_mem _ (h.2 (by simpa using h1))⟩

theorem stepB_invB {q : TradeQuad} (hq : q.1 = "NVDA") (s : StateB)
    (c : String × List Char) (h : quadCount s.trades q ≤ 1) :
    quadCount (stepB s c).trades q ≤ 1 := by
  unfold stepB
  split
  · exact h
  split
  · exact h
  split
  · exact h
  split
  · exact h
  rename_i hA hB hC hD
  dsimp only
  rw [quadCount_append]
  by_cases heq : quadB c = q
  · have hc1 : c.1 = "NVDA" := by
      have he : c.1 = q.1 := congrArg (fun t : TradeQuad => t.1) heq
      rw [he, hq]
    have hnm : quadB c ∉ quadsOf s.trades := fun hm => hC ⟨hc1, hm⟩
    have hzero : quadCount s.trades q = 0 := by
      by_contra hnz
      exact hnm (heq.symm ▸
        (quad_mem_iff s.trades q).mpr (Nat.one_le_iff_ne_zero.mpr hnz))
    rw [if_pos (by rw [← heq]; rfl), hzero]
  · rw [show quadOfR (mkTradeB c) = some (quadB c) from rfl,
      if_neg (fun hsome => heq (Option.some.inj hsome))]
    simpa using h

theorem strategyB_keyCount (full : List Char) (k : TradeKey)
    (hk : k.1 ≠ "NVDA") : keyCount (strategyB full) k ≤ 1 := by
  have hfold := foldl_stepB_pres
    (fun s => keyCount s.trades k ≤ 1 ∧
      (1 ≤ keyCount s.trades k → k ∈ s.processed))
    (fun s c h => stepB_invA hk s c h)
    (tickerCands full) ⟨[], []⟩ (by constructor <;> simp [keyCount])
  exact hfold.1

theorem strategyB_quadCount (full : List Char) (q : TradeQuad) :
    quadCount (strategyB full) q ≤ 1 := by
  by_cases hq : q.1 = "NVDA"
  · exact foldl_stepB_pres (fun s => quadCount s.trades q ≤ 1)
      (fun s c h => stepB_invB hq s c h) (tickerCands full) ⟨[], []⟩
      (by simp [quadCount])
  · exact le_trans (quadCount_le_keyCount _ q)
      (strategyB_keyCount full (q.1, q.2.1, q.2.2.1) hq)

/-- C4 (amended): the strategy emits at most one record per
(ticker, transaction date, notification date) key — for ticker NVDA, at
most one per key-plus-description quadruple — and one loop iteration
emits its candidate exactly when the candidate has at least two dates in
its context, is not deduplicated away, and its description and
transaction date are both resolved; a candidate missing either one is
dropped, not only one missing both. -/
theorem c4_amended_dedup_and_drop :
    (∀ (full : List Char) (k : TradeKey), k.1 ≠ "NVDA" →
      keyCount (strategyB full) k ≤ 1) ∧
    (∀ (full : List Char) (q : TradeQuad), quadCount (strategyB full) q ≤ 1) ∧
    (∀ (s : StateB) (c : String × List Char),
      (stepB s c).trades = s.trades ++ [mkTradeB c] ↔
        (2 ≤ (datesOf c.2).length ∧
          ¬ (keyB c ∈ s.processed ∧ c.1 ≠ "NVDA") ∧
          ¬ (c.1 = "NVDA" ∧ quadB c ∈ quadsOf s.trades) ∧
          descOf c.2 ≠ "Unknown" ∧ tdOf c.2 ≠ "Unknown")) := by
  refine ⟨fun full k hk => strategyB_keyCount full k hk,
    fun full q => strategyB_quadCount full q, ?_⟩
  intro s c
  unfold stepB
  split
  · rename_i hA
    constructor
    · intro habs
      exact absurd (congrArg List.length habs) (by simp)
    · rintro ⟨h2, -⟩
      omega
  split
  · rename_i hB
    constructor
    · intro habs
      exact absurd (congrArg List.length habs) (by simp)
    · rintro ⟨-, hnB, -⟩
      exact absurd hB hnB
  split
  · rename_i hC
    constructor
    · intro habs
      exact absurd (congrArg List.length habs) (by simp)
    · rintro ⟨-, -, hnC, -⟩
      exact absurd hC hnC
  split
  · rename_i hD
    dsimp only
    constructor
    · intro habs
      exact absurd (congrArg List.length habs) (by simp)
    · rintro ⟨-, -, -, hd, ht⟩
      rcases hD with he | he
      · exact absurd he hd
      · exact absurd he ht
  · rename_i hA hB hC hD
    dsimp only
    constructor
    · intro _
      refine ⟨by omega, hB, hC, fun hde => hD (.inl hde),
        fun hte => hD (.inr hte)⟩
    · intro _
      rfl

/-- C4 counterexample: the unique candidate of `textNoDesc` has two
resolved dates (so its transaction date is not missing) and an
unresolved description, yet nothing is emitted — it is dropped although
it is not missing both fields, refuting the claimed drop condition. -/
theorem c4_counterexample :
    tickerCands textNoDesc = [("AAPL", textNoDesc)] ∧
    2 ≤ (datesOf textNoDesc).length ∧
    tdOf textNoDesc = "01/02/2025" ∧
    descOf textNoDesc = "Unknown" ∧
    strategyB textNoDesc = [] := by decide

/-- C4 witness: the per-key bound at a concrete non-NVDA key. -/
theorem c4_witness :
    keyCount (strategyB textNoDesc) ("AAPL", "01/02/2025", "01/03/2025") ≤ 1 :=
  c4_amended_dedup_and_drop.1 textNoDesc ("AAPL", "01/02/2025", "01/03/2025")
    (by decide)

/-- C9 witness: the round trip at a concrete state. -/
theorem c9_witness :
    (load_data "2025" (save_data stKnown).file).counts = stKnown.counts :=
  (c9_persist_load_roundtrip "2025" stKnown).2

end PelosiTrades
